import Mathlib

/-!
Verification of the capture-transcribe-translate pipeline of the
cs-translate repository, as a shallow embedding in Lean 4.

Conventions used throughout:
* Go `time.Time` instants are modelled as integers on a single timeline
  (the unit is seconds; only comparisons and fixed offsets occur in the
  embedded code). `t.After(u)` becomes `u < t`.
* Go `float64` durations that are parsed from text are modelled as exact
  rationals; wall-clock measurements (`time.Since`) are not modelled and
  the corresponding formatted strings are carried as oracle parameters.
* External effects (subprocesses, the file system, channels) are modelled
  by explicit oracles and traces; a worker's interaction with the
  transcription subprocess becomes a list of trace actions.
* Fallible Go calls are modelled with `Bool`/`Option`/`Except` results.
-/

/-- Embedded from `src/cli.go` (`voiceContextItem`): one entry of the
voice-context buffer, a transcribed text with its arrival instant. -/
structure voiceContextItem where
  text : String
  timestamp : Int
deriving DecidableEq, Repr

/-- Embedded from `src/cli.go` `pruneOldContext`'s loop body: scan for the
first entry strictly newer than the cutoff (`v.timestamp.After(cutoff)`),
returning the suffix `context[i:]` from that entry on, or `none` if the
loop falls through. -/
def pruneScan (cutoff : Int) : List voiceContextItem → Option (List voiceContextItem)
  | [] => none
  | v :: rest => if cutoff < v.timestamp then some (v :: rest) else pruneScan cutoff rest

/-- Embedded from `src/cli.go` `pruneOldContext`: returns `context[i:]` for
the first index `i` whose entry is after the cutoff; when the loop finds no
such entry it falls through to `return context`, returning the whole list. -/
def pruneOldContext (context : List voiceContextItem) (cutoff : Int) : List voiceContextItem :=
  match pruneScan cutoff context with
  | some suffixPart => suffixPart
  | none => context

/-- Embedded from `src/cli.go` `buildContextString`: empty input gives `""`;
otherwise the texts of `context[:len(context)-1]` are written into a string
builder, a `"\n"` being written before every element except the first. -/
def buildContextString (context : List voiceContextItem) : String :=
  if context.isEmpty then ""
  else
    match (context.take (context.length - 1)).map (fun v => v.text) with
    | [] => ""
    | t :: ts => ts.foldl (fun sb s => sb ++ "\n" ++ s) t

/-- Spec-side characterisation (from the spec's words "newline-joined,
oldest first") used to compare `buildContextString` against: join a list of
strings with a single newline between consecutive elements. -/
def newlineJoin : List String → String
  | [] => ""
  | [s] => s
  | s :: s2 :: rest => s ++ "\n" ++ newlineJoin (s2 :: rest)

/-- Digits-to-number helper for the model of Go's float scanning. -/
def digitsToNat (ds : List Char) : Nat :=
  ds.foldl (fun n c => 10 * n + (c.toNat - '0'.toNat)) 0

/-- Part of the model of Go `fmt.Sscanf` with verb `%f` (used by
`parseTranscription` in `src/cli.go`): scan an optional exponent part
`e`/`E` with optional sign and mandatory digits; with no exponent
introducer the value scanned so far is returned. -/
def scanExponent (base : ℚ) (cs : List Char) : Option ℚ :=
  match cs with
  | 'e' :: rest => scanExponentDigits base rest
  | 'E' :: rest => scanExponentDigits base rest
  | _ => some base
where
  scanExponentDigits (base : ℚ) (cs : List Char) : Option ℚ :=
    let (neg, cs2) :=
      match cs with
      | '+' :: rest => (false, rest)
      | '-' :: rest => (true, rest)
      | _ => (false, cs)
    let ds := cs2.takeWhile Char.isDigit
    if ds.isEmpty then none
    else some (if neg then base / 10 ^ digitsToNat ds else base * 10 ^ digitsToNat ds)

/-- Part of the model of Go `fmt.Sscanf` `%f`: scan an unsigned decimal
float (mandatory integer digits, optional fraction, optional exponent). -/
def scanUnsignedFloat (cs : List Char) : Option ℚ :=
  let intDigits := cs.takeWhile Char.isDigit
  let rest := cs.dropWhile Char.isDigit
  if intDigits.isEmpty then none
  else
    let intPart : ℚ := (digitsToNat intDigits : ℚ)
    match rest with
    | '.' :: rest2 =>
      let fracDigits := rest2.takeWhile Char.isDigit
      let rest3 := rest2.dropWhile Char.isDigit
      scanExponent (intPart + (digitsToNat fracDigits : ℚ) / 10 ^ fracDigits.length) rest3
    | _ => scanExponent intPart rest

/-- Model of Go `fmt.Sscanf(s, "%f", &d)` as called by `parseTranscription`
in `src/cli.go`: leading blanks are skipped, then a signed decimal float is
scanned; trailing unconsumed input is ignored (as `Sscanf` does). The model
covers the decimal forms of the `%f` verb; the `Inf`/`NaN`/hexadecimal
spellings, which never occur on this wire format, are not modelled. The
scanned value is exact (rational) rather than rounded to binary floating
point. `none` models a scan error (`n != 1` or `err != nil`). -/
def goScanFloat (cs : List Char) : Option ℚ :=
  let cs := cs.dropWhile (fun c => c = ' ' ∨ c = '\t')
  match cs with
  | '+' :: rest => scanUnsignedFloat rest
  | '-' :: rest => (scanUnsignedFloat rest).map (fun q => -q)
  | _ => scanUnsignedFloat cs

/-- Index of the last occurrence of a character in a character list,
modelling Go `strings.LastIndex(text, "|")` for the one-byte separator. -/
def lastIndexOf (c : Char) : List Char → Option Nat
  | [] => none
  | x :: xs =>
    match lastIndexOf c xs with
    | some i => some (i + 1)
    | none => if x = c then some 0 else none

/-- Embedded from `src/cli.go` `parseTranscription`: split the wire format
`text|durationSeconds` at the last `|`; when the suffix scans as a float the
prefix is the text and the scanned value the duration, otherwise (scan
failure, or no `|` at all) the whole string is the text and the duration
keeps its zero initialisation. -/
def parseTranscription (text : String) : String × ℚ :=
  match lastIndexOf '|' text.data with
  | some idx =>
    match goScanFloat (text.data.drop (idx + 1)) with
    | some d => (String.mk (text.data.take idx), d)
    | none => (text, 0)
  | none => (text, 0)

/-- The duration scanned from the suffix after the last `|` of a result
string, `none` when there is no `|` or the suffix fails to scan; the
fallback condition of `parseTranscription`. -/
def suffixFloat (text : String) : Option ℚ :=
  match lastIndexOf '|' text.data with
  | some idx => goScanFloat (text.data.drop (idx + 1))
  | none => none


/-- Which of the two translation entry points of
`translator.OllamaTranslator` was invoked by the dispatcher (source:
`src/cli.go` `handleVoiceTranscription`, which picks
`TranslateWithContext` exactly when the built context string is
non-empty). -/
inductive TranslateCall
  | contextFree (text : String)
  | withContext (text ctx : String)
deriving DecidableEq, Repr

/-- Result of the embedded `handleVoiceTranscription`: the final displayed
translation, which translation entry point was called, and the transcribe
duration parsed from the wire format. The Go function additionally returns
a display string carrying the measured wall-clock translate duration; that
measurement is real time and is elided here. -/
structure VoiceResult where
  translated : String
  call : TranslateCall
  transcribeDuration : ℚ
deriving DecidableEq, Repr

/-- Embedded from `src/cli.go` `handleVoiceTranscription`: parse the wire
format, append the transcription to the voice context at instant `now`,
prune with cutoff `now - 10` seconds, build the context string, call
`TranslateWithContext` when it is non-empty and `Translate` otherwise, and
fall back to the untranslated transcribed text when the call errors. The
two translator methods are oracle parameters `tr` and `twc`. -/
def handleVoiceTranscription (tr : String → Except String String)
    (twc : String → String → Except String String)
    (now : Int) (text : String) (voiceContext : List voiceContextItem) : VoiceResult :=
  let p := parseTranscription text
  let transcribedText := p.1
  let appended := voiceContext ++ [⟨transcribedText, now⟩]
  let pruned := pruneOldContext appended (now - 10)
  let contextText := buildContextString pruned
  let picked :=
    if contextText.length > 0 then
      (twc transcribedText contextText, TranslateCall.withContext transcribedText contextText)
    else
      (tr transcribedText, TranslateCall.contextFree transcribedText)
  match picked.1 with
  | .ok t => ⟨t, picked.2, p.2⟩
  | .error _ => ⟨transcribedText, picked.2, p.2⟩

/-- Embedded from `src/main.go` (`parser.ChatMessage`, consumed by both
dispatcher loops): an immutable parsed chat line. -/
structure ChatMessage where
  playerName : String
  messageContent : String
  isDead : Bool
  originalText : String
deriving DecidableEq, Repr

/-- One printed output item of a dispatcher loop. ANSI colour escapes and
the wall-clock-derived fragments of the printed strings (the measured
translate-duration in the voice name column) are elided; the structure and
text payload of each printed line are kept. -/
inductive OutEvent
  | stopping
  | rawLine (line : String)
  | chatLine (isDead : Bool) (name : String) (translated : String)
  | voiceHeader (transcribeDur : ℚ) (rawText : String)
  | voiceLine (translated : String)
  | echoOriginal (content : String)
  | echoTranslated (translated : String)
deriving DecidableEq, Repr

/-- Embedded from `src/main.go` `outputChat`: print the raw original line
when present, then the (possibly `*DEAD*`-prefixed) name and translated
text. -/
def outputChat (name text : String) (isDead : Bool) (originalLine : String) : List OutEvent :=
  (if originalLine ≠ "" then [OutEvent.rawLine originalLine] else []) ++
    [OutEvent.chatLine isDead name text]

/-- Control outcome of one iteration of a dispatcher loop: proceed with the
next iteration, or leave the loop. -/
inductive LoopCtl
  | cont
  | brk
deriving DecidableEq, Repr

/-- The events one iteration of the `runCS2Mode` select statement can be
woken by (source: `src/main.go`): the interrupt signal, a receive from the
log-line channel (either a closed-channel receive or a line with its error
flag), and a receive from the transcription channel (closed or a result
string). -/
inductive CS2Event
  | interrupt
  | logClosed
  | logLine (hasErr : Bool) (text : String)
  | audioClosed
  | audioText (text : String)
deriving DecidableEq, Repr

/-- Dispatcher state of `runCS2Mode` as far as the loop mutates it: whether
the transcription channel has been nulled out, the voice-context slice
variable, and the output printed so far. (In the Go source the voice
context slice is passed by value to `handleVoiceTranscription` and never
reassigned by the caller, so the loop-level slice is left unchanged by a
voice event; the embedding mirrors that.) -/
structure CS2State where
  audioChanNil : Bool
  voiceContext : List voiceContextItem
  printed : List OutEvent
deriving DecidableEq, Repr

/-- Embedded from `src/main.go` `runCS2Mode`'s select loop, one iteration:
interrupt prints and breaks; a closed log channel breaks the loop; a log
line with an error is skipped; a parsed chat line is translated (with the
inline marker replacing the translation on error) and printed; a closed
transcription channel nulls the channel and continues; a transcription
result goes through `handleVoiceTranscription` and is printed. The chat
parser and the two translator methods are oracle parameters. External
side effects of shutdown (`stopDockerContainer`) are elided. -/
def runCS2Step (parseLine : String → Option ChatMessage)
    (tr : String → Except String String)
    (twc : String → String → Except String String)
    (now : Int) (st : CS2State) : CS2Event → CS2State × LoopCtl
  | .interrupt => ({ st with printed := st.printed ++ [OutEvent.stopping] }, .brk)
  | .logClosed => (st, .brk)
  | .logLine hasErr text =>
    if hasErr then (st, .cont)
    else
      match parseLine text with
      | none => (st, .cont)
      | some msg =>
        let translated :=
          match tr msg.messageContent with
          | .ok t => t
          | .error _ => "[Translation Pending/Error]"
        ({ st with printed := st.printed ++
            outputChat msg.playerName translated msg.isDead msg.originalText }, .cont)
  | .audioClosed => ({ st with audioChanNil := true }, .cont)
  | .audioText text =>
    let r := handleVoiceTranscription tr twc now text st.voiceContext
    ({ st with printed := st.printed ++
        [OutEvent.voiceHeader r.transcribeDuration text, OutEvent.voiceLine r.translated] },
      .cont)

/-- The head of Go `strings.Split(text, "|")`: the characters before the
first `|` (the whole string when there is none). Used by the echo-mode
transcription case in `src/main.go`. -/
def splitBarHead (text : String) : String :=
  String.mk (text.data.takeWhile (fun c => c ≠ '|'))

/-- The events one iteration of the `runEchoMode` select statement can be
woken by (source: `src/main.go`). -/
inductive EchoEvent
  | interrupt
  | hotkeyErr
  | logClosed
  | logLine (hasErr : Bool) (text : String)
  | keyPressed
  | transcription (text : String)
deriving DecidableEq, Repr

/-- Dispatcher state of `runEchoMode` as far as the loop mutates it
(recording-process rotation state is external and elided). -/
structure EchoState where
  logLinesNil : Bool
  printed : List OutEvent
deriving DecidableEq, Repr

/-- Embedded from `src/main.go` `runEchoMode`'s select loop, one iteration.
Interrupt and a hotkey-backend error return from the loop; a closed
log-line channel is nulled out (`logLines = nil`) and the loop continues; a
chat line is handled as in `runCS2Mode`; the F9 capture case only touches
external recording state (elided here, the loop continues); a transcription
result prints the part before the first `|` and, when translation
succeeds, the translated text — on a translation error it logs and
continues without printing a translated line. -/
def runEchoStep (parseLine : String → Option ChatMessage)
    (tr : String → Except String String)
    (st : EchoState) : EchoEvent → EchoState × LoopCtl
  | .interrupt => ({ st with printed := st.printed ++ [OutEvent.stopping] }, .brk)
  | .hotkeyErr => (st, .brk)
  | .logClosed => ({ st with logLinesNil := true }, .cont)
  | .logLine hasErr text =>
    if hasErr then (st, .cont)
    else
      match parseLine text with
      | none => (st, .cont)
      | some msg =>
        let translated :=
          match tr msg.messageContent with
          | .ok t => t
          | .error _ => "[Translation Pending/Error]"
        ({ st with printed := st.printed ++
            outputChat msg.playerName translated msg.isDead msg.originalText }, .cont)
  | .keyPressed => (st, .cont)
  | .transcription text =>
    let content := splitBarHead text
    match tr content with
    | .error _ =>
      ({ st with printed := st.printed ++ [OutEvent.echoOriginal content] }, .cont)
    | .ok t =>
      ({ st with printed := st.printed ++
          [OutEvent.echoOriginal content, OutEvent.echoTranslated t] }, .cont)

/-- ASCII whitespace test for the model of Go `strings.TrimSpace` (the Go
function trims Unicode white space; only the ASCII cases are modelled,
which covers the transcriber's line-oriented output). -/
def isSpaceChar (c : Char) : Bool :=
  c = ' ' ∨ c = '\t' ∨ c = '\n' ∨ c = '\r'

/-- Model of Go `strings.TrimSpace`: drop whitespace from both ends. -/
def trimSpace (s : String) : String :=
  String.mk (((s.data.dropWhile isSpaceChar).reverse.dropWhile isSpaceChar).reverse)

/-- Oracles for a transcription worker run: the verdict of the external
near-silence probe per path, whether the N-th `Fprintln` to the
subprocess's stdin succeeds, the N-th `Scan` of its stdout (`none` models
a failed read / closed stream), and the formatted wall-clock transcribe
duration attached to the N-th successfully read response. -/
structure WorkerEnv where
  silent : String → Bool
  writeOk : Nat → Bool
  responses : Nat → Option String
  durStr : Nat → String

/-- One observable action of a transcription worker: a request line
written, a failed request write, a response line read, a transcription
result emitted on the `transcriptions` channel, and a file deletion. -/
inductive WAct
  | req (path : String)
  | reqFail (path : String)
  | resp (line : String)
  | emit (msg : String)
  | fileRemove (path : String)
deriving DecidableEq, Repr

/-- Embedded from the second half of `src/audio/devices_windows.go`,
`(*Listener).worker`, as the action trace it produces on a queue of paths
(`w` and `r` count the stdin writes and stdout reads already performed):
each dequeued path is first probed for near-silence and, if silent,
deleted and skipped with no request; otherwise one request line is written
(a failed write skips to the next path), one response line is read
(a failed read terminates the worker), the trimmed non-empty response is
emitted as `text|duration`, and the file is removed. The initial 100 ms
settle sleep is timing only and is elided. -/
def windowsWorkerTrace (env : WorkerEnv) : List String → Nat → Nat → List WAct
  | [], _, _ => []
  | path :: rest, w, r =>
    if env.silent path then
      WAct.fileRemove path :: windowsWorkerTrace env rest w r
    else if env.writeOk w then
      match env.responses r with
      | some line =>
        let t := trimSpace line
        WAct.req path :: WAct.resp line ::
          ((if t = "" then [] else [WAct.emit (t ++ "|" ++ env.durStr r)]) ++
            (WAct.fileRemove path :: windowsWorkerTrace env rest (w + 1) (r + 1)))
      | none => [WAct.req path]
    else
      WAct.reqFail path :: windowsWorkerTrace env rest (w + 1) r

/-- Embedded from `src/audio/listener.go` `(*Listener).worker` (the variant
without the near-silence probe and without the duration suffix on emitted
results), as the action trace it produces. -/
def listenerWorkerTrace (env : WorkerEnv) : List String → Nat → Nat → List WAct
  | [], _, _ => []
  | path :: rest, w, r =>
    if env.writeOk w then
      match env.responses r with
      | some line =>
        let t := trimSpace line
        WAct.req path :: WAct.resp line ::
          ((if t = "" then [] else [WAct.emit t]) ++
            (WAct.fileRemove path :: listenerWorkerTrace env rest (w + 1) (r + 1)))
      | none => [WAct.req path]
    else
      WAct.reqFail path :: listenerWorkerTrace env rest (w + 1) r

/-- Is a worker action a request write or a response read? -/
def isReqResp : WAct → Bool
  | .req _ => true
  | .resp _ => true
  | _ => false

/-- The request/response sub-trace of a worker trace. -/
def reqRespTrace (tr : List WAct) : List WAct := tr.filter isReqResp

/-- Number of request lines written in a trace. -/
def countReq (tr : List WAct) : Nat :=
  tr.countP (fun a => match a with | .req _ => true | _ => false)

/-- The transcription results emitted in a trace, in order. -/
def emitsOf (tr : List WAct) : List String :=
  tr.filterMap (fun a => match a with | .emit m => some m | _ => none)

/-- The strictly alternating request/response trace the spec describes:
one request per path, each immediately answered by the next stdout line. -/
def altTrace (lines : Nat → String) : List String → Nat → List WAct
  | [], _ => []
  | p :: ps, r => WAct.req p :: WAct.resp (lines r) :: altTrace lines ps (r + 1)

/-- File-system events seen by `watchFiles` (source: `src/audio/listener.go`
and the identical copy in `src/audio/devices_windows.go`): a creation
event carrying a name, any other notification, and a watcher error (logged
and skipped). Channel closure and shutdown end the event list. -/
inductive FSEvent
  | create (name : String)
  | otherOp (name : String)
  | watchError
deriving DecidableEq, Repr

/-- Go `strings.HasSuffix`, on the character lists of the two strings. -/
def hasSuffix (s suffixStr : String) : Bool :=
  suffixStr.data.isSuffixOf s.data

/-- Embedded from `watchFiles`'s loop body: on a `.wav` creation event the
previously held file (when set and different from the new name) is
enqueued and the new name becomes the held file; everything else leaves
the state alone. State is (queue so far, held-back `lastFile`, with `""`
for the initial unset value). -/
def watchStep (st : List String × String) (ev : FSEvent) : List String × String :=
  match ev with
  | .create name =>
    if hasSuffix name ".wav" then
      let queue := if st.2 ≠ "" ∧ st.2 ≠ name then st.1 ++ [st.2] else st.1
      (queue, name)
    else st
  | _ => st

/-- Embedded from `watchFiles`: process a whole (finite) event sequence
from the initial state (`lastFile` unset); the run ending models shutdown
(context cancellation, stop signal or events-channel closure), at which
point the function simply returns without emitting the held-back file. -/
def watchRun (evs : List FSEvent) : List String × String :=
  evs.foldl watchStep ([], "")

/-- The `.wav` creation names of an event sequence, in order. -/
def wavNames : List FSEvent → List String
  | [] => []
  | .create n :: rest => if hasSuffix n ".wav" then n :: wavNames rest else wavNames rest
  | _ :: rest => wavNames rest

/-- Spec-side characterisation helper: collapse consecutive repetitions of
the current value in a name sequence. -/
def collapseRun (last : String) : List String → List String
  | [] => []
  | n :: ns => if n = last then collapseRun last ns else n :: collapseRun n ns

/-- Spec-side characterisation: the successive distinct values taken by the
watcher's held-back `lastFile` over a name sequence. -/
def heldSeq : List String → List String
  | [] => []
  | n :: ns => n :: collapseRun n ns

/-- The enqueued files as a recurrence over the name sequence, tracking the
current held-back value (`""` for unset): the direct image of the loop's
enqueue condition. -/
def emitFrom (last : String) : List String → List String
  | [] => []
  | n :: ns => if last ≠ "" ∧ last ≠ n then last :: emitFrom n ns else emitFrom n ns

/-- The final held-back value after a name sequence. -/
def finalHeld (last : String) : List String → String
  | [] => last
  | n :: ns => finalHeld n ns


/-- Embedded from `src/cli.go` `renameWithRetry`, with the underlying
`os.Rename` as an oracle giving the outcome of the N-th attempt and the
100 ms sleeps counted rather than performed. Result: whether the rename
eventually succeeded, the total number of rename attempts performed, and
the number of backoff sleeps taken. The fuel argument starts at 10 (the
loop bound `i < 10`); when the loop is exhausted the function returns the
result of one final rename call. -/
def renameAttempts (rename : Nat → Bool) : Nat → Nat → Nat → Bool × Nat × Nat
  | 0, k, s => (rename k, k + 1, s)
  | n + 1, k, s => if rename k then (true, k + 1, s) else renameAttempts rename n (k + 1) (s + 1)

/-- Embedded from `src/cli.go` `renameWithRetry`: ten in-loop attempts each
followed on failure by a 100 ms sleep, then one final attempt whose error
(if any) is surfaced. -/
def renameWithRetry (rename : Nat → Bool) : Bool × Nat × Nat :=
  renameAttempts rename 10 0 0


/-- Outcome of a send on the modelled Go channel: sending on a closed
channel panics (Go runtime semantics), otherwise the value is appended to
the buffer. Blocking on a full buffer is a liveness aspect not modelled. -/
inductive SendOutcome
  | panics
  | sent (queue : List String)
deriving DecidableEq, Repr

/-- The channel-relevant listener state for `Stop`/`SubmitFile` (source:
second half of `src/audio/devices_windows.go`): whether `stop` and
`fileQueue` have been closed, and the buffered contents of `fileQueue`
(capacity 100 in the source; the bound only affects blocking, not the
closed-send panic modelled here). -/
structure ListenerChans where
  stopClosed : Bool
  fileQueueClosed : Bool
  fileQueue : List String
deriving DecidableEq, Repr

/-- Go channel send, `ch <- v`: panics when the channel is closed. -/
def chanSend (closed : Bool) (queue : List String) (v : String) : SendOutcome :=
  if closed then SendOutcome.panics else SendOutcome.sent (queue ++ [v])

/-- Embedded from `(*Listener).Stop` in `src/audio/devices_windows.go`:
`close(l.stop); close(l.fileQueue)` (the process kills and the temp-dir
removal are external effects, elided). -/
def listenerStop (l : ListenerChans) : ListenerChans :=
  { l with stopClosed := true, fileQueueClosed := true }

/-- Embedded from `(*Listener).SubmitFile` in
`src/audio/devices_windows.go`: an unconditional `l.fileQueue <- path`. -/
def submitFile (l : ListenerChans) (path : String) : SendOutcome :=
  chanSend l.fileQueueClosed l.fileQueue path

/-- C10: `Stop` closes the listener's work-queue channel, so every
`SubmitFile` performed after `Stop` is a send on a closed channel and
panics; the public interface contains no guard making such a submission a
no-op or a graceful error. -/
theorem C10_submit_after_stop_panics (l : ListenerChans) (path : String) :
    submitFile (listenerStop l) path = SendOutcome.panics := rfl

/-- After ten exhausted in-loop attempts, a rename oracle that always
fails drives `renameAttempts` to a failure with one attempt per fuel unit
plus the final attempt, and one backoff sleep per fuel unit. -/
theorem renameAttempts_all_fail (g : Nat → Bool) (hg : ∀ n, g n = false) :
    ∀ fuel k s, renameAttempts g fuel k s = (false, k + fuel + 1, s + fuel) := by
  intro fuel
  induction fuel with
  | zero => intro k s; simp [renameAttempts, hg k]
  | succ n ih =>
    intro k s
    have hstep : renameAttempts g (n + 1) k s = renameAttempts g n (k + 1) (s + 1) := by
      simp [renameAttempts, hg k]
    rw [hstep, ih (k + 1) (s + 1)]
    simp [Prod.ext_iff]
    omega

/-- A rename oracle that fails on the first `j` attempts (counted from
`k`) and succeeds on attempt `k + j` makes `renameAttempts` succeed with
exactly `j + 1` attempts and `j` backoff sleeps, provided the loop has
fuel left. -/
theorem renameAttempts_succeeds (rename : Nat → Bool) :
    ∀ fuel j k s, j < fuel → (∀ i, i < j → rename (k + i) = false) →
      rename (k + j) = true →
      renameAttempts rename fuel k s = (true, k + j + 1, s + j) := by
  intro fuel
  induction fuel with
  | zero => intro j k s hj; omega
  | succ n ih =>
    intro j k s hj hfail hsucc
    cases j with
    | zero =>
      have h0 : rename k = true := by simpa using hsucc
      simp [renameAttempts, h0]
    | succ j' =>
      have h0 : rename k = false := by simpa using hfail 0 (by omega)
      have hstep : renameAttempts rename (n + 1) k s = renameAttempts rename n (k + 1) (s + 1) := by
        simp [renameAttempts, h0]
      rw [hstep, ih j' (k + 1) (s + 1) (by omega)
        (fun i hi => by
          have := hfail (i + 1) (by omega)
          simpa [Nat.add_assoc, Nat.add_comm, Nat.add_left_comm] using this)
        (by
          have := hsucc
          simpa [Nat.add_assoc, Nat.add_comm, Nat.add_left_comm] using this)]
      simp [Prod.ext_iff]
      omega

/-- C4 (amended): if the underlying rename fails exactly `k` times with
`k < 10` and then succeeds, `renameWithRetry` succeeds after exactly
`k + 1` attempts with a 100 ms backoff after each of the `k` failures —
as the claim states; but if the underlying rename always fails,
`renameWithRetry` returns the error after exactly 11 attempts (the ten
in-loop attempts, each followed by a backoff sleep, plus the final
attempt outside the loop), not after 10 as the claim states. -/
theorem C4_rename_retry_amended (rename : Nat → Bool) (k : Nat) (hk : k < 10)
    (hfail : ∀ i, i < k → rename i = false) (hsucc : rename k = true) :
    renameWithRetry rename = (true, k + 1, k) ∧
    ∀ g : Nat → Bool, (∀ n, g n = false) → renameWithRetry g = (false, 11, 10) := by
  constructor
  · have h := renameAttempts_succeeds rename 10 k 0 0 hk
      (fun i hi => by simpa using hfail i hi) (by simpa using hsucc)
    simpa [renameWithRetry] using h
  · intro g hg
    have h := renameAttempts_all_fail g hg 10 0 0
    simpa [renameWithRetry] using h

/-- C4 counterexample: with a rename that always fails, `renameWithRetry`
performs 11 attempts before surfacing the error, not the 10 the claim
states (the `for i < 10` loop performs ten attempts and the final
`return os.Rename(...)` an eleventh). -/
theorem C4_rename_retry_counterexample :
    renameWithRetry (fun _ => false) = (false, 11, 10) ∧ (11 : Nat) ≠ 10 := by
  constructor
  · decide
  · decide

/-- C4 witness: a rename failing exactly three times then succeeding
makes `renameWithRetry` succeed on the fourth attempt. -/
theorem C4_rename_retry_witness :
    renameWithRetry (fun i => decide (i = 3)) = (true, 4, 3) :=
  (C4_rename_retry_amended (fun i => decide (i = 3)) 3 (by omega)
    (fun i hi => by simp; omega) (by simp)).1

/-- C8 (amended): in `runCS2Mode` a closed transcription-result channel is
nulled out and the loop continues, and in `runEchoMode` a closed log-line
channel is nulled out and the loop continues — but (see the
counterexample) a closed log-line channel in `runCS2Mode` terminates the
loop rather than being nulled out. -/
theorem C8_channel_close_amended (parseLine : String → Option ChatMessage)
    (tr : String → Except String String) (twc : String → String → Except String String)
    (now : Int) (st : CS2State) (st2 : EchoState) :
    runCS2Step parseLine tr twc now st CS2Event.audioClosed
      = ({ st with audioChanNil := true }, LoopCtl.cont) ∧
    runEchoStep parseLine tr st2 EchoEvent.logClosed
      = ({ st2 with logLinesNil := true }, LoopCtl.cont) :=
  ⟨rfl, rfl⟩

/-- C8 counterexample: in `runCS2Mode` the closed log-line channel case is
`if !ok { break loop }` — the dispatcher terminates the loop instead of
nulling the channel out and continuing, refuting the claim for the
log-line channel. -/
theorem C8_channel_close_counterexample :
    (runCS2Step (fun _ => none) (fun _ => Except.ok "") (fun _ _ => Except.ok "") 0
        ⟨false, [], []⟩ CS2Event.logClosed).2 = LoopCtl.brk ∧
    LoopCtl.brk ≠ LoopCtl.cont :=
  ⟨rfl, by decide⟩

/-- Folding the context texts with the builder's separator discipline
(separator written before every element but the first) produces the
newline join of the whole list. -/
theorem newlineJoin_append_head (a b : String) (ss : List String) :
    newlineJoin ((a ++ b) :: ss) = a ++ newlineJoin (b :: ss) := by
  cases ss with
  | nil => simp [newlineJoin]
  | cons u us => simp [newlineJoin, String.append_assoc]

/-- The string-builder fold of `buildContextString` equals `newlineJoin`. -/
theorem foldl_newlineJoin (ts : List String) :
    ∀ t, ts.foldl (fun sb s => sb ++ "
" ++ s) t = newlineJoin (t :: ts) := by
  induction ts with
  | nil => intro t; rfl
  | cons s ss ih =>
    intro t
    have h1 : (s :: ss).foldl (fun sb s => sb ++ "
" ++ s) t
        = ss.foldl (fun sb s => sb ++ "
" ++ s) (t ++ "
" ++ s) := rfl
    rw [h1, ih (t ++ "
" ++ s), newlineJoin_append_head (t ++ "
") s ss]
    rfl

/-- C5: `buildContextString` concatenates the texts of all entries except
the most recently appended one, newline-joined, oldest first; the result
therefore never depends on the last entry, and it is the empty string for
an empty or single-entry buffer. -/
theorem C5_build_context_excludes_last (ctx : List voiceContextItem) (x : voiceContextItem) :
    buildContextString (ctx ++ [x]) = newlineJoin (ctx.map (fun v => v.text)) ∧
    buildContextString [] = "" ∧
    buildContextString [x] = "" := by
  refine ⟨?_, rfl, rfl⟩
  unfold buildContextString
  rw [if_neg (by simp)]
  have h2 : (ctx ++ [x]).take ((ctx ++ [x]).length - 1) = ctx := by
    have : (ctx ++ [x]).length - 1 = ctx.length := by simp
    rw [this, List.take_left]
  rw [h2]
  cases hm : ctx.map (fun v => v.text) with
  | nil => simp [newlineJoin]
  | cons t ts => exact foldl_newlineJoin ts t

/-- When every entry is at or before the cutoff, the scanning loop of
`pruneOldContext` finds no entry to keep. -/
theorem pruneScan_eq_none (cutoff : Int) (ctx : List voiceContextItem)
    (h : ∀ v ∈ ctx, v.timestamp ≤ cutoff) : pruneScan cutoff ctx = none := by
  induction ctx with
  | nil => rfl
  | cons v rest ih =>
    have hv : ¬ cutoff < v.timestamp := by
      have := h v (by simp)
      omega
    simp only [pruneScan, if_neg hv]
    exact ih (fun u hu => h u (by simp [hu]))

/-- When some entry is after the cutoff, the scanning loop finds one. -/
theorem pruneScan_isSome (cutoff : Int) (ctx : List voiceContextItem)
    (h : ∃ v ∈ ctx, cutoff < v.timestamp) : (pruneScan cutoff ctx).isSome = true := by
  induction ctx with
  | nil => simp at h
  | cons v rest ih =>
    by_cases hv : cutoff < v.timestamp
    · simp [pruneScan, hv]
    · simp only [pruneScan, if_neg hv]
      apply ih
      rcases h with ⟨u, hu, hcu⟩
      rcases List.mem_cons.mp hu with h1 | h1
      · subst h1; exact absurd hcu hv
      · exact ⟨u, h1, hcu⟩

/-- On a time-ordered buffer with at least one fresh entry,
`pruneOldContext` keeps exactly the fresh entries. -/
theorem pruneOldContext_of_fresh (cutoff : Int) (ctx : List voiceContextItem)
    (hs : ctx.Pairwise (fun a b => a.timestamp ≤ b.timestamp))
    (h : ∃ v ∈ ctx, cutoff < v.timestamp) :
    pruneOldContext ctx cutoff = ctx.filter (fun v => decide (cutoff < v.timestamp)) := by
  induction ctx with
  | nil => simp at h
  | cons v rest ih =>
    by_cases hv : cutoff < v.timestamp
    · have h1 : pruneOldContext (v :: rest) cutoff = v :: rest := by
        simp [pruneOldContext, pruneScan, hv]
      rw [h1, List.filter_cons_of_pos (by simpa using hv)]
      rw [List.filter_eq_self.mpr]
      intro u hu
      have h2 : v.timestamp ≤ u.timestamp := (List.pairwise_cons.mp hs).1 u hu
      simp
      omega
    · have hrest : ∃ u ∈ rest, cutoff < u.timestamp := by
        rcases h with ⟨u, hu, hcu⟩
        rcases List.mem_cons.mp hu with h1 | h1
        · subst h1; exact absurd hcu hv
        · exact ⟨u, h1, hcu⟩
      have h1 : pruneOldContext (v :: rest) cutoff = pruneOldContext rest cutoff := by
        have h2 := pruneScan_isSome cutoff rest hrest
        simp only [pruneOldContext, pruneScan, if_neg hv]
        cases hps : pruneScan cutoff rest with
        | none => rw [hps] at h2; simp at h2
        | some l => rfl
      rw [h1, List.filter_cons_of_neg (by simpa using hv)]
      exact ih (List.pairwise_cons.mp hs).2 hrest

/-- C3 (amended): on a time-ordered buffer containing at least one fresh
entry, pruning with cutoff `now - 10` removes exactly the stale entries
(timestamp at or before the cutoff) and afterwards every remaining entry
satisfies `now - timestamp < 10`; but when every entry is stale the loop
falls through to `return context` and the buffer is returned unchanged,
so the claim's "in particular when every entry is older than the horizon"
case fails (see the counterexample). In the program this case cannot be
reached because `handleVoiceTranscription` appends a now-timestamped entry
before pruning. -/
theorem C3_prune_amended (ctx : List voiceContextItem) (now : Int)
    (hs : ctx.Pairwise (fun a b => a.timestamp ≤ b.timestamp)) :
    ((∃ v ∈ ctx, now - 10 < v.timestamp) →
      pruneOldContext ctx (now - 10) = ctx.filter (fun v => decide (now - 10 < v.timestamp)) ∧
      ∀ v ∈ pruneOldContext ctx (now - 10), now - v.timestamp < 10) ∧
    ((∀ v ∈ ctx, v.timestamp ≤ now - 10) → pruneOldContext ctx (now - 10) = ctx) := by
  constructor
  · intro h
    have heq := pruneOldContext_of_fresh (now - 10) ctx hs h
    refine ⟨heq, ?_⟩
    intro v hv
    rw [heq] at hv
    have := List.of_mem_filter hv
    simp at this
    omega
  · intro h
    simp [pruneOldContext, pruneScan_eq_none (now - 10) ctx h]

/-- C3 counterexample: a buffer whose single entry is older than the
10-second horizon (timestamp 0, now 15) is returned unchanged by
`pruneOldContext`, and the surviving entry violates `now - timestamp < 10`
— refuting the claim that pruning removes exactly the entries with
`timestamp <= now - 10s` in particular when every entry is stale. -/
theorem C3_prune_counterexample :
    pruneOldContext [⟨"old", 0⟩] (15 - 10) = [⟨"old", 0⟩] ∧
    ∃ v ∈ pruneOldContext [⟨"old", 0⟩] (15 - 10), ¬ ((15 : Int) - v.timestamp < 10) := by
  refine ⟨by decide, ⟨⟨"old", 0⟩, by decide, by decide⟩⟩

/-- C3 witness: a time-ordered buffer with one stale and one fresh entry,
pruned at now = 15, keeps exactly the fresh entry. -/
theorem C3_prune_witness :
    pruneOldContext [⟨"a", 0⟩, ⟨"b", 12⟩] (15 - 10)
      = List.filter (fun v => decide ((15 : Int) - 10 < v.timestamp)) [⟨"a", 0⟩, ⟨"b", 12⟩] ∧
    ∀ v ∈ pruneOldContext [⟨"a", 0⟩, ⟨"b", 12⟩] (15 - 10), (15 : Int) - v.timestamp < 10 :=
  (C3_prune_amended [⟨"a", 0⟩, ⟨"b", 12⟩] 15 (by decide)).1 ⟨⟨"b", 12⟩, by decide, by decide⟩

/-- C6: the transcription result `"salut|1.23"` arriving with empty prior
context is parsed as text `"salut"` with transcribe duration 1.23 and
dispatched to the context-free `Translate` with `"salut"`; and any result
string whose suffix after the last `|` does not scan as a float
(including strings with no `|` at all) is treated whole as the text with
duration 0. -/
theorem C6_parse_transcription_dispatch (tr : String → Except String String)
    (twc : String → String → Except String String) (now : Int) (text : String)
    (h : suffixFloat text = none) :
    (handleVoiceTranscription tr twc now "salut|1.23" []).call
      = TranslateCall.contextFree "salut" ∧
    (handleVoiceTranscription tr twc now "salut|1.23" []).transcribeDuration = 123 / 100 ∧
    parseTranscription text = (text, 0) := by
  have hp : parseTranscription "salut|1.23" = ("salut", 123 / 100) := by
    with_unfolding_all rfl
  have hprune : pruneOldContext [⟨"salut", now⟩] (now - 10) = [⟨"salut", now⟩] := by
    have : now - 10 < now := by omega
    simp [pruneOldContext, pruneScan, this]
  have hbuild : buildContextString [⟨"salut", now⟩] = "" := rfl
  have hparse3 : parseTranscription text = (text, 0) := by
    unfold parseTranscription
    unfold suffixFloat at h
    cases hidx : lastIndexOf '|' text.data with
    | none => rfl
    | some idx =>
      rw [hidx] at h
      simp only [] at h
      simp [h]
  refine ⟨?_, ?_, hparse3⟩
  · simp only [handleVoiceTranscription, hp, List.nil_append, hprune, hbuild]
    cases htr : tr "salut" with
    | ok t => simp [htr]
    | error e => simp [htr]
  · simp only [handleVoiceTranscription, hp, List.nil_append, hprune, hbuild]
    cases htr : tr "salut" with
    | ok t => simp [htr]
    | error e => simp [htr]

/-- C6 witness: instantiated at a failing-suffix input (`"hello|world"`,
whose suffix does not scan as a float). -/
theorem C6_parse_transcription_witness :
    (handleVoiceTranscription (fun _ => Except.ok "hi") (fun _ _ => Except.ok "hi") 0
        "salut|1.23" []).call = TranslateCall.contextFree "salut" ∧
    (handleVoiceTranscription (fun _ => Except.ok "hi") (fun _ _ => Except.ok "hi") 0
        "salut|1.23" []).transcribeDuration = 123 / 100 ∧
    parseTranscription "hello|world" = ("hello|world", 0) :=
  C6_parse_transcription_dispatch (fun _ => Except.ok "hi") (fun _ _ => Except.ok "hi") 0
    "hello|world" (by with_unfolding_all rfl)

/-- When both translator methods fail, `handleVoiceTranscription` returns
the untranslated transcribed text, whichever method was picked. -/
theorem handleVoice_error_fallback (ftr : String → String) (ftwc : String → String → String)
    (now : Int) (text : String) (voiceContext : List voiceContextItem) :
    (handleVoiceTranscription (fun s => Except.error (ftr s))
        (fun s c => Except.error (ftwc s c)) now text voiceContext).translated
      = (parseTranscription text).1 ∧
    (handleVoiceTranscription (fun s => Except.error (ftr s))
        (fun s c => Except.error (ftwc s c)) now text voiceContext).transcribeDuration
      = (parseTranscription text).2 := by
  constructor <;>
  · simp only [handleVoiceTranscription]
    by_cases hc : (buildContextString (pruneOldContext
        (voiceContext ++ [⟨(parseTranscription text).1, now⟩]) (now - 10))).length > 0 <;>
      simp [hc]

/-- C7 (amended): when a translation call fails, the dispatcher loop of
`runCS2Mode` continues in all cases; for a chat event the raw original
line is still printed and the displayed translation is replaced by the
inline marker `[Translation Pending/Error]`; for a voice event the
displayed translation falls back to the bare untranslated transcribed
text, with no error marker attached. -/
theorem C7_translation_fallback_amended (parseLine : String → Option ChatMessage)
    (ftr : String → String) (ftwc : String → String → String) (now : Int) (st : CS2State)
    (text vtext : String) (msg : ChatMessage) (hpl : parseLine text = some msg) :
    runCS2Step parseLine (fun s => Except.error (ftr s)) (fun s c => Except.error (ftwc s c))
        now st (CS2Event.logLine false text)
      = ({ st with printed := st.printed ++
            (outputChat msg.playerName "[Translation Pending/Error]" msg.isDead
              msg.originalText) }, LoopCtl.cont) ∧
    runCS2Step parseLine (fun s => Except.error (ftr s)) (fun s c => Except.error (ftwc s c))
        now st (CS2Event.audioText vtext)
      = ({ st with printed := st.printed ++
            [OutEvent.voiceHeader (parseTranscription vtext).2 vtext,
             OutEvent.voiceLine (parseTranscription vtext).1] }, LoopCtl.cont) := by
  constructor
  · simp [runCS2Step, hpl]
  · have h := handleVoice_error_fallback ftr ftwc now vtext st.voiceContext
    simp only [runCS2Step, h.1, h.2]

/-- C7 counterexample: a voice event whose translation fails displays
exactly the untranslated transcribed text (`"salut"`), with no inline
marker distinguishing the failure — while a failed chat translation is
displayed as the marker string rather than the source text; the claim's
"falls back to the untranslated source text with an inline marker" holds
in neither form. -/
theorem C7_translation_fallback_counterexample :
    runCS2Step (fun _ => none) (fun _ => Except.error "backend down")
        (fun _ _ => Except.error "backend down") 0 ⟨false, [], []⟩
        (CS2Event.audioText "salut|1.23")
      = (⟨false, [], [OutEvent.voiceHeader (123 / 100) "salut|1.23",
          OutEvent.voiceLine "salut"]⟩, LoopCtl.cont) ∧
    (parseTranscription "salut|1.23").1 = "salut" := by
  constructor
  · with_unfolding_all rfl
  · with_unfolding_all rfl

/-- C7 witness: the amended theorem instantiated at a concrete chat line
and a concrete voice result with an always-failing translator. -/
theorem C7_translation_fallback_witness :
    runCS2Step (fun _ => some ⟨"alice", "bonjour", false, "raw line"⟩)
        (fun s => Except.error ("down " ++ s)) (fun s c => Except.error ("down " ++ s ++ c))
        0 ⟨false, [], []⟩ (CS2Event.logLine false "whatever")
      = (⟨false, [], outputChat "alice" "[Translation Pending/Error]" false "raw line"⟩,
         LoopCtl.cont) ∧
    runCS2Step (fun _ => some ⟨"alice", "bonjour", false, "raw line"⟩)
        (fun s => Except.error ("down " ++ s)) (fun s c => Except.error ("down " ++ s ++ c))
        0 ⟨false, [], []⟩ (CS2Event.audioText "salut|1.23")
      = (⟨false, [], [OutEvent.voiceHeader (parseTranscription "salut|1.23").2 "salut|1.23",
          OutEvent.voiceLine (parseTranscription "salut|1.23").1]⟩, LoopCtl.cont) :=
  C7_translation_fallback_amended (fun _ => some ⟨"alice", "bonjour", false, "raw line"⟩)
    (fun s => "down " ++ s) (fun s c => "down " ++ s ++ c) 0 ⟨false, [], []⟩
    "whatever" "salut|1.23" ⟨"alice", "bonjour", false, "raw line"⟩ rfl

/-- Unfolding the watcher fold over a whole event sequence: the queue
grows by the enqueue recurrence over the `.wav` creation names and the
held-back file is the last such name. -/
theorem watch_foldl (evs : List FSEvent) :
    ∀ q last, evs.foldl watchStep (q, last)
      = (q ++ emitFrom last (wavNames evs), finalHeld last (wavNames evs)) := by
  induction evs with
  | nil => intro q last; simp [emitFrom, finalHeld, wavNames]
  | cons e rest ih =>
    intro q last
    cases e with
    | create name =>
      by_cases hw : hasSuffix name ".wav"
      · by_cases hc : last ≠ "" ∧ last ≠ name
        · have hstep : watchStep (q, last) (FSEvent.create name) = (q ++ [last], name) := by
            simp [watchStep, hw, hc]
          rw [List.foldl_cons, hstep, ih (q ++ [last]) name]
          simp [wavNames, hw, emitFrom, hc, finalHeld]
        · have hstep : watchStep (q, last) (FSEvent.create name) = (q, name) := by
            simp [watchStep, hw]
            intro h1
            by_contra h2
            exact hc ⟨h1, h2⟩
          rw [List.foldl_cons, hstep, ih q name]
          simp [wavNames, hw, emitFrom, hc, finalHeld]
      · have hstep : watchStep (q, last) (FSEvent.create name) = (q, last) := by
          simp [watchStep, hw]
        rw [List.foldl_cons, hstep, ih q last]
        simp [wavNames, hw]
    | otherOp name => rw [List.foldl_cons]; exact ih q last
    | watchError => rw [List.foldl_cons]; exact ih q last

/-- The enqueue recurrence started from a held value equals all but the
last element of the held-value sequence. -/
theorem emitFrom_dropLast (ns : List String) :
    ∀ last, last ≠ "" → (∀ m ∈ ns, m ≠ "") →
      emitFrom last ns = (last :: collapseRun last ns).dropLast := by
  induction ns with
  | nil => intro last _ _; simp [emitFrom, collapseRun]
  | cons m ms ih =>
    intro last hl hm
    by_cases hms : m = last
    · have h1 : emitFrom last (m :: ms) = emitFrom last ms := by
        simp [emitFrom, hms]
      have h2 : collapseRun last (m :: ms) = collapseRun last ms := by
        simp [collapseRun, hms]
      rw [h1, h2]
      exact ih last hl (fun u hu => hm u (by simp [hu]))
    · have h1 : emitFrom last (m :: ms) = last :: emitFrom m ms := by
        have : last ≠ m := fun h => hms h.symm
        simp [emitFrom, hl, this]
      have h2 : collapseRun last (m :: ms) = m :: collapseRun m ms := by
        simp [collapseRun, hms]
      rw [h1, h2]
      have h3 : (last :: m :: collapseRun m ms).dropLast
          = last :: (m :: collapseRun m ms).dropLast := rfl
      rw [h3]
      congr 1
      exact ih m (hm m (by simp)) (fun u hu => hm u (by simp [hu]))

/-- From the unset initial held value, the enqueue recurrence yields all
but the last of the held-value sequence. -/
theorem emitFrom_initial (ns : List String) (h : ∀ m ∈ ns, m ≠ "") :
    emitFrom "" ns = (heldSeq ns).dropLast := by
  cases ns with
  | nil => rfl
  | cons n ns2 =>
    have h1 : emitFrom "" (n :: ns2) = emitFrom n ns2 := by simp [emitFrom]
    rw [h1]
    exact emitFrom_dropLast ns2 n (h n (by simp)) (fun u hu => h u (by simp [hu]))

/-- Every `.wav` creation name is non-empty (it carries the suffix). -/
theorem wavNames_ne_empty (evs : List FSEvent) : ∀ m ∈ wavNames evs, m ≠ "" := by
  induction evs with
  | nil => simp [wavNames]
  | cons e rest ih =>
    cases e with
    | create name =>
      by_cases hw : hasSuffix name ".wav"
      · intro m hmem
        rw [show wavNames (FSEvent.create name :: rest)
            = name :: wavNames rest from by simp [wavNames, hw]] at hmem
        rcases List.mem_cons.mp hmem with h1 | h1
        · subst h1
          intro hne
          subst hne
          exact absurd hw (by decide)
        · exact ih m h1
      · intro m hmem
        rw [show wavNames (FSEvent.create name :: rest)
            = wavNames rest from by simp [wavNames, hw]] at hmem
        exact ih m hmem
    | otherOp name => intro m hmem; exact ih m hmem
    | watchError => intro m hmem; exact ih m hmem

/-- C2: over any finite sequence of file-system events, the segment
watcher enqueues exactly the held-back-value sequence of the `.wav`
creation names minus its last element — so the most recently created file
is always the one held back and never the one enqueued at that point; the
run ending (shutdown) adds nothing, the held-back last file is dropped;
when only a single segment is ever created nothing is emitted; and any
single new creation event either enqueues nothing or enqueues exactly the
previously held-back file, which differs from the newly created name. -/
theorem C2_watcher_holds_back_latest (evs : List FSEvent) (name n : String) :
    (watchRun evs).1 = (heldSeq (wavNames evs)).dropLast ∧
    (wavNames evs = [n] → (watchRun evs).1 = []) ∧
    ((watchRun (evs ++ [FSEvent.create name])).1 = (watchRun evs).1 ∨
      ((watchRun (evs ++ [FSEvent.create name])).1
          = (watchRun evs).1 ++ [(watchRun evs).2] ∧
        (watchRun evs).2 ≠ name)) := by
  have hmain : (watchRun evs).1 = (heldSeq (wavNames evs)).dropLast := by
    unfold watchRun
    rw [watch_foldl evs [] ""]
    simpa using emitFrom_initial (wavNames evs) (wavNames_ne_empty evs)
  refine ⟨hmain, ?_, ?_⟩
  · intro hn
    rw [hmain, hn]
    rfl
  · have hstep : watchRun (evs ++ [FSEvent.create name])
        = watchStep (watchRun evs) (FSEvent.create name) := by
      unfold watchRun
      rw [List.foldl_append]
      rfl
    rw [hstep]
    by_cases hw : hasSuffix name ".wav"
    · by_cases hc : (watchRun evs).2 ≠ "" ∧ (watchRun evs).2 ≠ name
      · right
        refine ⟨?_, hc.2⟩
        simp [watchStep, hw, hc]
      · left
        simp [watchStep, hw]
        intro h1
        by_contra h2
        exact hc ⟨h1, h2⟩
    · left
      simp [watchStep, hw]

/-- C2 witness: a run creating a single `.wav` segment (followed by an
unrelated notification) emits nothing. -/
theorem C2_watcher_witness :
    (watchRun [FSEvent.create "audio_000.wav", FSEvent.otherOp "x"]).1 = [] :=
  (C2_watcher_holds_back_latest [FSEvent.create "audio_000.wav", FSEvent.otherOp "x"]
    "y" "audio_000.wav").2.1 (by decide)

/-- In a run where every stdin write succeeds and every stdout read
succeeds, the silence-checking worker's request/response sub-trace over an
arbitrary queue — silent and non-silent paths freely interleaved — is the
strict alternation over the non-silent paths, with one request per
consumed non-silent path (silent paths are consumed by deletion alone and
advance neither counter). -/
theorem windows_worker_alternation (env : WorkerEnv) (lines : Nat → String)
    (hw : ∀ m, env.writeOk m = true) (hr : ∀ m, env.responses m = some (lines m)) :
    ∀ paths w r,
      reqRespTrace (windowsWorkerTrace env paths w r)
        = altTrace lines (paths.filter (fun p => !env.silent p)) r ∧
      countReq (windowsWorkerTrace env paths w r)
        = (paths.filter (fun p => !env.silent p)).length := by
  intro paths
  induction paths with
  | nil => intro w r; simp [windowsWorkerTrace, reqRespTrace, altTrace, countReq]
  | cons p ps ih =>
    intro w r
    by_cases hsp : env.silent p = true
    · have htrace : windowsWorkerTrace env (p :: ps) w r
          = WAct.fileRemove p :: windowsWorkerTrace env ps w r := by
        simp [windowsWorkerTrace, hsp]
      have hfil : (p :: ps).filter (fun q => !env.silent q)
          = ps.filter (fun q => !env.silent q) := by
        simp [List.filter_cons, hsp]
      obtain ⟨ih1, ih2⟩ := ih w r
      constructor
      · rw [htrace, hfil]
        simp only [reqRespTrace] at ih1 ⊢
        simpa [isReqResp] using ih1
      · rw [htrace, hfil]
        simp only [countReq] at ih2 ⊢
        simpa using ih2
    · have hsp2 : env.silent p = false := by simpa using hsp
      have htrace : windowsWorkerTrace env (p :: ps) w r
          = WAct.req p :: WAct.resp (lines r) ::
            ((if trimSpace (lines r) = "" then []
              else [WAct.emit (trimSpace (lines r) ++ "|" ++ env.durStr r)]) ++
              (WAct.fileRemove p :: windowsWorkerTrace env ps (w + 1) (r + 1))) := by
        simp [windowsWorkerTrace, hsp2, hw w, hr r]
      have hfil : (p :: ps).filter (fun q => !env.silent q)
          = p :: ps.filter (fun q => !env.silent q) := by
        simp [List.filter_cons, hsp2]
      obtain ⟨ih1, ih2⟩ := ih (w + 1) (r + 1)
      constructor
      · rw [htrace, hfil]
        simp only [reqRespTrace] at ih1 ⊢
        by_cases ht : trimSpace (lines r) = "" <;>
          simp [List.filter_append, isReqResp, ht, altTrace, ih1]
      · rw [htrace, hfil]
        simp only [countReq] at ih2 ⊢
        by_cases ht : trimSpace (lines r) = "" <;>
          simp [List.countP_append, ht, ih2]

/-- The same alternation for the worker variant without the silence
probe (`src/audio/listener.go`). -/
theorem listener_worker_all_ok (env : WorkerEnv) (lines : Nat → String)
    (hw : ∀ m, env.writeOk m = true) (hr : ∀ m, env.responses m = some (lines m)) :
    ∀ paths w r,
      reqRespTrace (listenerWorkerTrace env paths w r) = altTrace lines paths r ∧
      countReq (listenerWorkerTrace env paths w r) = paths.length := by
  intro paths
  induction paths with
  | nil => intro w r; simp [listenerWorkerTrace, reqRespTrace, altTrace, countReq]
  | cons p ps ih =>
    intro w r
    have htrace : listenerWorkerTrace env (p :: ps) w r
        = WAct.req p :: WAct.resp (lines r) ::
          ((if trimSpace (lines r) = "" then [] else [WAct.emit (trimSpace (lines r))]) ++
            (WAct.fileRemove p :: listenerWorkerTrace env ps (w + 1) (r + 1))) := by
      simp [listenerWorkerTrace, hw w, hr r]
    obtain ⟨ih1, ih2⟩ := ih (w + 1) (r + 1)
    constructor
    · rw [htrace]
      simp only [reqRespTrace] at ih1 ⊢
      by_cases ht : trimSpace (lines r) = "" <;>
        simp [List.filter_append, isReqResp, ht, altTrace, ih1]
    · rw [htrace]
      simp only [countReq] at ih2 ⊢
      by_cases ht : trimSpace (lines r) = "" <;>
        simp [List.countP_append, ht, ih2]

/-- C1 (amended): in any run where every stdin write succeeds and every
stdout read succeeds — both hypotheses forced by the counterexample,
where a silent path and a failed stdin write each consume a path without
any request line — the silence-checking worker of
`src/audio/devices_windows.go` writes exactly one request line per
consumed non-silent path, with silent paths interleaved anywhere in the
queue consumed by deletion alone, while the `src/audio/listener.go`
worker (no silence probe) writes exactly one request line per consumed
path; and each worker reads exactly one response line per written request
in strict alternation — the response to request N is read before request
N+1 is written, so at most one request is ever in flight. -/
theorem C1_worker_alternation_amended (env : WorkerEnv) (lines : Nat → String)
    (paths : List String) (w r : Nat)
    (hw : ∀ m, env.writeOk m = true) (hr : ∀ m, env.responses m = some (lines m)) :
    reqRespTrace (windowsWorkerTrace env paths w r)
      = altTrace lines (paths.filter (fun p => !env.silent p)) r ∧
    countReq (windowsWorkerTrace env paths w r)
      = (paths.filter (fun p => !env.silent p)).length ∧
    reqRespTrace (listenerWorkerTrace env paths w r) = altTrace lines paths r ∧
    countReq (listenerWorkerTrace env paths w r) = paths.length := by
  obtain ⟨h1, h2⟩ := windows_worker_alternation env lines hw hr paths w r
  obtain ⟨h3, h4⟩ := listener_worker_all_ok env lines hw hr paths w r
  exact ⟨h1, h2, h3, h4⟩

/-- C1 counterexample: two independent refutations of "exactly one
request line per consumed path", both in runs where every read of the
transcriber's stdout trivially succeeds (the response oracle always has a
line ready and no read is attempted). First, the silence-checking worker
consumes a silent path, deletes the file and writes no request line at
all. Second, a path whose stdin write fails is consumed with a failed
write and no request line delivered — by either worker (the Go code logs
and continues). In each case zero request lines stand against one
consumed path; these are the two behaviours the amendment's write-success
and non-silence provisos carve out. -/
theorem C1_consumed_without_request_counterexample :
    windowsWorkerTrace ⟨fun _ => true, fun _ => true, fun _ => some "bonjour", fun _ => "0.10"⟩
        ["seg.wav"] 0 0 = [WAct.fileRemove "seg.wav"] ∧
    countReq (windowsWorkerTrace
        ⟨fun _ => true, fun _ => true, fun _ => some "bonjour", fun _ => "0.10"⟩
        ["seg.wav"] 0 0) = 0 ∧
    windowsWorkerTrace ⟨fun _ => false, fun _ => false, fun _ => some "bonjour", fun _ => "0.10"⟩
        ["seg.wav"] 0 0 = [WAct.reqFail "seg.wav"] ∧
    countReq (windowsWorkerTrace
        ⟨fun _ => false, fun _ => false, fun _ => some "bonjour", fun _ => "0.10"⟩
        ["seg.wav"] 0 0) = 0 ∧
    listenerWorkerTrace ⟨fun _ => false, fun _ => false, fun _ => some "bonjour", fun _ => "0.10"⟩
        ["seg.wav"] 0 0 = [WAct.reqFail "seg.wav"] ∧
    countReq (listenerWorkerTrace
        ⟨fun _ => false, fun _ => false, fun _ => some "bonjour", fun _ => "0.10"⟩
        ["seg.wav"] 0 0) = 0 ∧
    (0 : Nat) ≠ 1 :=
  ⟨rfl, rfl, rfl, rfl, rfl, rfl, by decide⟩

/-- C1 witness: a mixed run — a silent path interleaved between two
transcribed ones, all writes and reads succeeding — yields the strict
alternation over the two non-silent paths for the silence-checking
worker and over all three paths for the listener.go worker. -/
theorem C1_worker_alternation_witness :
    reqRespTrace (windowsWorkerTrace
        ⟨fun p => decide (p = "quiet.wav"), fun _ => true, fun _ => some "ok", fun _ => "0.10"⟩
        ["a.wav", "quiet.wav", "b.wav"] 0 0)
      = altTrace (fun _ => "ok")
          (List.filter (fun p => !decide (p = "quiet.wav")) ["a.wav", "quiet.wav", "b.wav"]) 0 ∧
    countReq (windowsWorkerTrace
        ⟨fun p => decide (p = "quiet.wav"), fun _ => true, fun _ => some "ok", fun _ => "0.10"⟩
        ["a.wav", "quiet.wav", "b.wav"] 0 0)
      = (List.filter (fun p => !decide (p = "quiet.wav"))
          ["a.wav", "quiet.wav", "b.wav"]).length ∧
    reqRespTrace (listenerWorkerTrace
        ⟨fun p => decide (p = "quiet.wav"), fun _ => true, fun _ => some "ok", fun _ => "0.10"⟩
        ["a.wav", "quiet.wav", "b.wav"] 0 0)
      = altTrace (fun _ => "ok") ["a.wav", "quiet.wav", "b.wav"] 0 ∧
    countReq (listenerWorkerTrace
        ⟨fun p => decide (p = "quiet.wav"), fun _ => true, fun _ => some "ok", fun _ => "0.10"⟩
        ["a.wav", "quiet.wav", "b.wav"] 0 0)
      = (["a.wav", "quiet.wav", "b.wav"] : List String).length :=
  C1_worker_alternation_amended
    ⟨fun p => decide (p = "quiet.wav"), fun _ => true, fun _ => some "ok", fun _ => "0.10"⟩
    (fun _ => "ok") ["a.wav", "quiet.wav", "b.wav"] 0 0 (fun _ => rfl) (fun _ => rfl)

/-- C9: when the transcriber answers a request with a line that is blank
after trimming, the worker reads it, emits no transcription result for
that segment, still deletes the segment file, and continues with both the
write and the read counter advanced by one — the next request written is
paired with the next response read, keeping the protocol in sync. -/
theorem C9_empty_response_sync (env : WorkerEnv) (path line : String) (rest : List String)
    (w r : Nat) (hsil : env.silent path = false) (hw : env.writeOk w = true)
    (hr : env.responses r = some line) (ht : trimSpace line = "") :
    windowsWorkerTrace env (path :: rest) w r
      = WAct.req path :: WAct.resp line :: WAct.fileRemove path ::
          windowsWorkerTrace env rest (w + 1) (r + 1) ∧
    emitsOf (windowsWorkerTrace env (path :: rest) w r)
      = emitsOf (windowsWorkerTrace env rest (w + 1) (r + 1)) := by
  have h1 : windowsWorkerTrace env (path :: rest) w r
      = WAct.req path :: WAct.resp line :: WAct.fileRemove path ::
          windowsWorkerTrace env rest (w + 1) (r + 1) := by
    simp [windowsWorkerTrace, hsil, hw, hr, ht]
  refine ⟨h1, ?_⟩
  rw [h1]
  simp [emitsOf]

/-- C9 witness: a whitespace-only response for the only queued segment
produces a request, the blank response, the file deletion, and nothing
emitted. -/
theorem C9_empty_response_witness :
    windowsWorkerTrace ⟨fun _ => false, fun _ => true, fun _ => some "   ", fun _ => "0.10"⟩
        ["a.wav"] 0 0
      = WAct.req "a.wav" :: WAct.resp "   " :: WAct.fileRemove "a.wav" ::
          windowsWorkerTrace ⟨fun _ => false, fun _ => true, fun _ => some "   ", fun _ => "0.10"⟩
            [] (0 + 1) (0 + 1) ∧
    emitsOf (windowsWorkerTrace
        ⟨fun _ => false, fun _ => true, fun _ => some "   ", fun _ => "0.10"⟩ ["a.wav"] 0 0)
      = emitsOf (windowsWorkerTrace
          ⟨fun _ => false, fun _ => true, fun _ => some "   ", fun _ => "0.10"⟩ [] (0 + 1) (0 + 1)) :=
  C9_empty_response_sync ⟨fun _ => false, fun _ => true, fun _ => some "   ", fun _ => "0.10"⟩
    "a.wav" "   " [] 0 0 rfl rfl rfl (by decide)
